import Mathlib

/-!
Verification development for the taiHEN patch and hook management
subsystem.  The entry-point layer is translated from `src/taihen.c`.
The Patch Store and Hook Chain Manager (`tai_hook_func_abs`,
`tai_hook_release`, `tai_inject_abs`, `tai_inject_release`,
`patches_deinit`) are declared and called by `src/taihen.c` but their
implementation file is not among the analysed sources, so those
operations are modelled from the specification (sections 4.1 and 4.2).
External collaborators (address resolver, process registry, plugin
configuration) are out of scope per the specification and appear as
parameters.
-/

namespace taihen

/-- Memory of a target address space: one content cell per address.
The Memory Mutator's redirect write for a hook is abstracted as storing
the hook function target in the cell at the target address. -/
abbrev Mem := Nat → Nat

/-- Modelled from the spec: success result code (all errors are negative). -/
def TAI_SUCCESS : Int := 0

/-- Modelled from the spec: negative code for SystemUnavailable
(configuration not loaded); `error.h` is not among the analysed sources. -/
def TAI_ERROR_SYSTEM : Int := -1

/-- Modelled from the spec: negative code for the InvalidHandle / not-found
condition on `release`. -/
def TAI_ERROR_NOT_FOUND : Int := -2

/-- Modelled from the spec: negative code returned when the target address is
already patched and the patch kind does not support chaining. -/
def TAI_ERROR_PATCH_EXISTS : Int := -5

/-- Modelled from the spec: module start reports failure with a status
distinct from success. -/
def SCE_KERNEL_START_FAILED : Int := -3

/-- Modelled from the spec: module start success status. -/
def SCE_KERNEL_START_SUCCESS : Int := 0

/-- Modelled from the spec: module stop success status. -/
def SCE_KERNEL_STOP_SUCCESS : Int := 0

/-- Hook Chain Entry: one per hook sharing a target address.  `next_ref` is
the call-through reference: the redirect target of the next element in the
chain (the previously installed hook's function, or the recorded original
content for the innermost entry). -/
structure HookEntry where
  uid : Nat
  func : Nat
  next_ref : Nat
deriving DecidableEq

/-- Patch kinds: hooks chain, injections do not. -/
inductive PatchKind
  | hook
  | injection
deriving DecidableEq

/-- Patch Record: one per patched target address.  For hook patches the
chain is nonempty, topmost (currently active redirect) first, and each
chain entry carries its own handle; for injection patches the chain is
empty and `uid` is the handle. -/
structure Patch where
  pid : Nat
  addr : Nat
  kind : PatchKind
  size : Nat
  original : List Nat
  chain : List HookEntry
  uid : Nat
deriving DecidableEq

/-- State of the Patch Store: target memory, the table of active patch
records, and the next fresh handle. -/
structure TaiState where
  mem : Mem
  patches : List Patch
  nextUid : Nat

/-- Key match for the at-most-one-patch-per-(pid, address) lookup. -/
def keyMatch (pid a : Nat) (q : Patch) : Bool :=
  q.pid == pid && q.addr == a

/-- Predicate: the patch record's chain contains the given hook handle. -/
def chainHas (u : Nat) (q : Patch) : Bool :=
  q.chain.any (fun e => e.uid == u)

/-- Predicate: the record is an injection with the given handle. -/
def injMatch (u : Nat) (q : Patch) : Bool :=
  decide (q.kind = PatchKind.injection) && q.uid == u

/-- Update every record with the given key (exact (pid, address) match). -/
def updatePatchAt (ps : List Patch) (pid a : Nat) (f : Patch → Patch) : List Patch :=
  ps.map (fun q => if keyMatch pid a q then f q else q)

/-- Currently installed redirect target of a hook patch: the topmost chain
entry's hook function. -/
def chainTop (p : Patch) : Nat :=
  match p.chain with
  | e :: _ => e.func
  | [] => p.original.headD 0

/-- Read `n` content cells starting at address `a`. -/
def readBytes (m : Mem) (a : Nat) : Nat → List Nat
  | 0 => []
  | n + 1 => m a :: readBytes m (a + 1) n

/-- Write the given content cells starting at address `a`. -/
def writeBytes (m : Mem) (a : Nat) : List Nat → Mem
  | [] => m
  | b :: bs => writeBytes (fun x => if x = a then b else m x) (a + 1) bs

/-- Modelled from the spec: Patch Store `install` for a hook
(`tai_hook_func_abs`, implemented outside the analysed sources).  If the
target (pid, address) is unpatched: capture the original content, write the
redirect, create a fresh record whose single chain entry calls through to
the original content.  If it holds a hook patch: extend the chain, the new
entry calling through to the previously installed redirect target, and make
the new hook the active redirect.  If it holds an injection: fail with the
patch-exists condition.  Returns the fresh handle on success. -/
def tai_hook_func_abs (s : TaiState) (pid dest hook_func : Nat) : Int × TaiState :=
  match s.patches.find? (keyMatch pid dest) with
  | some p =>
    if p.kind = PatchKind.injection then
      (TAI_ERROR_PATCH_EXISTS, s)
    else
      (Int.ofNat s.nextUid,
        { mem := fun x => if x = dest then hook_func else s.mem x,
          patches := updatePatchAt s.patches pid dest
            (fun q => { q with chain := { uid := s.nextUid, func := hook_func, next_ref := chainTop p } :: q.chain }),
          nextUid := s.nextUid + 1 })
  | none =>
      (Int.ofNat s.nextUid,
        { mem := fun x => if x = dest then hook_func else s.mem x,
          patches := { pid := pid, addr := dest, kind := PatchKind.hook, size := 1,
                       original := [s.mem dest],
                       chain := [{ uid := s.nextUid, func := hook_func, next_ref := s.mem dest }],
                       uid := s.nextUid } :: s.patches,
          nextUid := s.nextUid + 1 })

/-- Modelled from the spec: unlink a non-topmost chain entry; the entry
pointing at the removed one is relinked directly to the removed entry's
call-through reference, and target memory is not touched. -/
def unlinkChain (u : Nat) : List HookEntry → List HookEntry
  | [] => []
  | [e] => [e]
  | e :: e2 :: rest =>
    if e2.uid == u then { e with next_ref := e2.next_ref } :: rest
    else e :: unlinkChain u (e2 :: rest)

/-- Modelled from the spec: Patch Store `release` for a hook handle
(`tai_hook_release`, implemented outside the analysed sources).  Unknown
handles fail with the InvalidHandle condition and mutate nothing.
Releasing the topmost entry restores memory to its call-through reference
(the next hook's redirect, or the original content) and, if the chain
becomes empty, deletes the record; releasing a non-topmost entry relinks
the chain without touching target memory. -/
def tai_hook_release (s : TaiState) (u : Nat) : Int × TaiState :=
  match s.patches.find? (chainHas u) with
  | none => (TAI_ERROR_NOT_FOUND, s)
  | some p =>
    match p.chain with
    | [] => (TAI_ERROR_NOT_FOUND, s)
    | e :: rest =>
      if e.uid == u then
        if rest.isEmpty then
          (TAI_SUCCESS,
            { mem := fun x => if x = p.addr then e.next_ref else s.mem x,
              patches := s.patches.filter (fun q => ! keyMatch p.pid p.addr q),
              nextUid := s.nextUid })
        else
          (TAI_SUCCESS,
            { mem := fun x => if x = p.addr then e.next_ref else s.mem x,
              patches := updatePatchAt s.patches p.pid p.addr (fun q => { q with chain := rest }),
              nextUid := s.nextUid })
      else
        (TAI_SUCCESS,
          { mem := s.mem,
            patches := updatePatchAt s.patches p.pid p.addr (fun q => { q with chain := unlinkChain u q.chain }),
            nextUid := s.nextUid })

/-- Modelled from the spec: Patch Store `install` for an injection
(`tai_inject_abs`, implemented outside the analysed sources).  An existing
patch at the same exact (pid, address) fails with the patch-exists
condition (injections do not chain); otherwise the original content is
captured before the overwrite and a fresh record is created. -/
def tai_inject_abs (s : TaiState) (pid dest : Nat) (src : List Nat) : Int × TaiState :=
  match s.patches.find? (keyMatch pid dest) with
  | some _ => (TAI_ERROR_PATCH_EXISTS, s)
  | none =>
      (Int.ofNat s.nextUid,
        { mem := writeBytes s.mem dest src,
          patches := { pid := pid, addr := dest, kind := PatchKind.injection, size := src.length,
                       original := readBytes s.mem dest src.length,
                       chain := [],
                       uid := s.nextUid } :: s.patches,
          nextUid := s.nextUid + 1 })

/-- Modelled from the spec: Patch Store `release` for an injection handle
(`tai_inject_release`, implemented outside the analysed sources).  Unknown
or stale handles fail with the InvalidHandle condition and mutate nothing;
otherwise the original content is restored and the record deleted. -/
def tai_inject_release (s : TaiState) (u : Nat) : Int × TaiState :=
  match s.patches.find? (injMatch u) with
  | none => (TAI_ERROR_NOT_FOUND, s)
  | some p =>
      (TAI_SUCCESS,
        { mem := writeBytes s.mem p.addr p.original,
          patches := s.patches.filter (fun q => ! injMatch u q),
          nextUid := s.nextUid })

/-- Restore one record's original content (used by forced teardown). -/
def restorePatch (m : Mem) (p : Patch) : Mem :=
  writeBytes m p.addr p.original

/-- Modelled from the spec: `patches_deinit` / `teardown_all` force-releases
every remaining active record, restoring original content, ignoring
individual failures; implemented outside the analysed sources. -/
def patches_deinit (s : TaiState) : TaiState :=
  { mem := s.patches.foldl restorePatch s.mem,
    patches := [],
    nextUid := s.nextUid }

/-- Translation of `taiHookFunctionAbs` from `src/taihen.c`: direct
delegation to the Patch Store hook install. -/
def taiHookFunctionAbs (s : TaiState) (pid dest_func hook_func : Nat) : Int × TaiState :=
  tai_hook_func_abs s pid dest_func hook_func

/-- Translation of `taiHookFunctionExportForKernel` from `src/taihen.c`.
The Address Resolver collaborator `module_get_export_func` is out of scope;
its result is passed as `resolve` (return code, resolved address): a
negative return code is propagated unchanged, otherwise the absolute
install runs at the resolved address. -/
def taiHookFunctionExportForKernel (resolve : Int × Nat) (s : TaiState) (pid hook_func : Nat) : Int × TaiState :=
  if resolve.1 < 0 then (resolve.1, s)
  else taiHookFunctionAbs s pid resolve.2 hook_func

/-- Translation of `taiHookFunctionImportForKernel` from `src/taihen.c`,
with the `module_get_import_func` collaborator result passed as `resolve`. -/
def taiHookFunctionImportForKernel (resolve : Int × Nat) (s : TaiState) (pid hook_func : Nat) : Int × TaiState :=
  if resolve.1 < 0 then (resolve.1, s)
  else taiHookFunctionAbs s pid resolve.2 hook_func

/-- Translation of `taiHookFunctionOffsetForKernel` from `src/taihen.c`,
with the `module_get_offset` collaborator result passed as `resolve`: a
negative return code is propagated unchanged; otherwise, if `thumb` is
nonzero the resolved address gets its least-significant bit set, and the
absolute install runs at the (possibly adjusted) address. -/
def taiHookFunctionOffsetForKernel (resolve : Int × Nat) (thumb : Int) (s : TaiState) (pid hook_func : Nat) : Int × TaiState :=
  if resolve.1 < 0 then (resolve.1, s)
  else
    taiHookFunctionAbs s pid (if thumb = 0 then resolve.2 else resolve.2 ||| 1) hook_func

/-- Translation of `taiHookReleaseForKernel` from `src/taihen.c`. -/
def taiHookReleaseForKernel (s : TaiState) (tai_uid : Nat) : Int × TaiState :=
  tai_hook_release s tai_uid

/-- Translation of `taiInjectAbsForKernel` from `src/taihen.c`. -/
def taiInjectAbsForKernel (s : TaiState) (pid dest : Nat) (src : List Nat) : Int × TaiState :=
  tai_inject_abs s pid dest src

/-- Translation of `taiInjectDataForKernel` from `src/taihen.c`, with the
`module_get_offset` collaborator result passed as `resolve`. -/
def taiInjectDataForKernel (resolve : Int × Nat) (s : TaiState) (pid : Nat) (data : List Nat) : Int × TaiState :=
  if resolve.1 < 0 then (resolve.1, s)
  else taiInjectAbsForKernel s pid resolve.2 data

/-- Translation of `taiInjectReleaseForKernel` from `src/taihen.c`. -/
def taiInjectReleaseForKernel (s : TaiState) (tai_uid : Nat) : Int × TaiState :=
  tai_inject_release s tai_uid

/-- Configuration entry: a title identifier and a plugin to load for it. -/
structure ConfigEntry where
  title : Nat
  plugin : Nat
deriving DecidableEq

/-- Modelled from the spec: `taihen_config_parse` (the configuration parser
collaborator, out of scope) invokes the callback once per plugin entry
matching the title; here it returns the matching plugins in order. -/
def taihen_config_parse (config : List ConfigEntry) (titleid : Nat) : List Nat :=
  (config.filter (fun e => e.title == titleid)).map ConfigEntry.plugin

/-- Record of one invocation of the `hen_load_plugin` callback. -/
structure PluginLoadCall where
  pid : Nat
  plugin : Nat
  flags : Int
deriving DecidableEq

/-- Callback invocation for one plugin, carrying the parameter block
(`tai_plugin_load_t`: pid and flags) built by the caller. -/
def hen_load_plugin (pid : Nat) (flags : Int) (plugin : Nat) : PluginLoadCall :=
  { pid := pid, plugin := plugin, flags := flags }

/-- Translation of `taiLoadPluginsForTitleForKernel` from `src/taihen.c`:
if the configuration `g_config` is loaded, parse it for the title, invoke
the plugin-load callback for each matching plugin and return success;
otherwise return the system error. -/
def taiLoadPluginsForTitleForKernel (g_config : Option (List ConfigEntry)) (pid titleid : Nat) (flags : Int) : Int × List PluginLoadCall :=
  match g_config with
  | some config =>
      (TAI_SUCCESS, (taihen_config_parse config titleid).map (hen_load_plugin pid flags))
  | none => (TAI_ERROR_SYSTEM, [])

/-- Steps of subsystem start, in source order. -/
inductive StartStep
  | procMapInit
  | patchesInit
  | henAddPatches
deriving DecidableEq

/-- Translation of `module_start` from `src/taihen.c`: run the Process
Registry init, the Patch Store init, then install the baseline patches,
returning failure and stopping at the first step whose (collaborator)
return code is negative.  The second component records which steps ran,
in order. -/
def module_start (proc_map_init_ret patches_init_ret hen_add_patches_ret : Int) : Int × List StartStep :=
  if proc_map_init_ret < 0 then
    (SCE_KERNEL_START_FAILED, [StartStep.procMapInit])
  else if patches_init_ret < 0 then
    (SCE_KERNEL_START_FAILED, [StartStep.procMapInit, StartStep.patchesInit])
  else if hen_add_patches_ret < 0 then
    (SCE_KERNEL_START_FAILED, [StartStep.procMapInit, StartStep.patchesInit, StartStep.henAddPatches])
  else
    (SCE_KERNEL_START_SUCCESS, [StartStep.procMapInit, StartStep.patchesInit, StartStep.henAddPatches])

/-- Steps of subsystem stop, in source order. -/
inductive StopStep
  | henRemovePatches
  | patchesDeinit
  | procMapDeinit
deriving DecidableEq

/-- Translation of `module_stop` from `src/taihen.c`: unconditionally
remove the baseline patches, tear down the Patch Store (force-releasing
every remaining record) and the Process Registry, in that order, ignoring
the collaborator return codes, and report success.  The trace component
records the executed steps in order and the final state reflects the
forced teardown. -/
def module_stop (_hen_remove_ret _patches_deinit_ret _proc_map_deinit_ret : Int) (s : TaiState) : Int × List StopStep × TaiState :=
  (SCE_KERNEL_STOP_SUCCESS,
   [StopStep.henRemovePatches, StopStep.patchesDeinit, StopStep.procMapDeinit],
   patches_deinit s)

/-- Canonical call-through target of the head of an install list: the
topmost remaining hook's function, or the original content if none remain.
The list is ordered topmost (most recently installed) first, as pairs of
(handle, hook function). -/
def headFunc (orig : Nat) : List (Nat × Nat) → Nat
  | [] => orig
  | (_, f) :: _ => f

/-- Canonical chain for an install list (topmost first): each entry calls
through to the next element's hook function, the innermost entry to the
original content. -/
def mkChain (orig : Nat) : List (Nat × Nat) → List HookEntry
  | [] => []
  | (u, f) :: rest => { uid := u, func := f, next_ref := headFunc orig rest } :: mkChain orig rest

/-- Remove the element with the given handle from an install list. -/
def removeU (u : Nat) (l : List (Nat × Nat)) : List (Nat × Nat) :=
  l.filter (fun x => x.1 != u)

/-- Handle of the topmost (active) entry of an install list, if any. -/
def headUid (l : List (Nat × Nat)) : Option Nat :=
  l.head?.map Prod.fst

/-- Chain of the active patch record at the given (pid, address), if any. -/
def patchChainAt (s : TaiState) (pid a : Nat) : Option (List HookEntry) :=
  (s.patches.find? (keyMatch pid a)).map Patch.chain

/-- State holding, at (pid, a), exactly one hook patch record `p` whose
chain is the canonical chain of the install list `l` over original content
`orig`, with the topmost hook's redirect installed in memory, pairwise
distinct handles, and no other record claiming the same key or any of the
chain's handles. -/
@[reducible] def ChainedAt (s : TaiState) (pre post : List Patch) (pid a orig : Nat) (l : List (Nat × Nat)) (p : Patch) : Prop :=
  s.patches = pre ++ p :: post
  ∧ p.pid = pid
  ∧ p.addr = a
  ∧ p.kind = PatchKind.hook
  ∧ p.chain = mkChain orig l
  ∧ s.mem a = headFunc orig l
  ∧ (l.map Prod.fst).Nodup
  ∧ (∀ q ∈ pre, keyMatch pid a q = false)
  ∧ (∀ q ∈ post, keyMatch pid a q = false)
  ∧ (∀ q ∈ pre, ∀ u ∈ l.map Prod.fst, chainHas u q = false)
  ∧ (∀ q ∈ post, ∀ u ∈ l.map Prod.fst, chainHas u q = false)

/-- Result of releasing a list of hook handles in order. -/
def releaseSeq : TaiState → List Nat → TaiState
  | s, [] => s
  | s, u :: us => releaseSeq (taiHookReleaseForKernel s u).2 us

/-- Results and final state of a serialized sequence of injection installs
targeting one (pid, address), one call per source-content list. -/
def injectSeq (pid a : Nat) : TaiState → List (List Nat) → List Int × TaiState
  | s, [] => ([], s)
  | s, src :: rest =>
    let r := taiInjectAbsForKernel s pid a src
    let q := injectSeq pid a r.2 rest
    (r.1 :: q.1, q.2)

/-- Example state with an empty patch table, used by concrete witnesses. -/
def emptyState : TaiState :=
  { mem := fun x => x + 100, patches := [], nextUid := 7 }

/-! ### General lemmas about the list and memory primitives -/

theorem find?_append_of_none {α : Type} (p : α → Bool) (l1 l2 : List α)
    (h : ∀ x ∈ l1, p x = false) : (l1 ++ l2).find? p = l2.find? p := by
  induction l1 with
  | nil => rfl
  | cons a l ih =>
    have ha : p a = false := h a (List.mem_cons_self a l)
    rw [List.cons_append, List.find?_cons_of_neg _ (by simp [ha]), ih]
    exact fun x hx => h x (List.mem_cons_of_mem a hx)

theorem map_self_of_eq {α : Type} (g : α → α) (l : List α)
    (h : ∀ x ∈ l, g x = x) : l.map g = l := by
  induction l with
  | nil => rfl
  | cons a t ih =>
    rw [List.map_cons, h a (List.mem_cons_self a t),
      ih fun x hx => h x (List.mem_cons_of_mem a hx)]

theorem filter_self_of_true {α : Type} (p : α → Bool) (l : List α)
    (h : ∀ x ∈ l, p x = true) : l.filter p = l := by
  induction l with
  | nil => rfl
  | cons a t ih =>
    rw [List.filter_cons_of_pos (h a (List.mem_cons_self a t)),
      ih fun x hx => h x (List.mem_cons_of_mem a hx)]

theorem writeBytes_apply (bs : List Nat) (m : Mem) (a x : Nat) :
    writeBytes m a bs x = if a ≤ x ∧ x < a + bs.length then bs.getD (x - a) 0 else m x := by
  induction bs generalizing m a with
  | nil =>
    have hc : ¬ (a ≤ x ∧ x < a + ([] : List Nat).length) := by
      simp only [List.length_nil]
      omega
    rw [if_neg hc]
    rfl
  | cons b t ih =>
    show writeBytes (fun y => if y = a then b else m y) (a + 1) t x = _
    rw [ih]
    by_cases h1 : a + 1 ≤ x ∧ x < a + 1 + t.length
    · have hc : a ≤ x ∧ x < a + (b :: t).length := by
        simp only [List.length_cons]
        omega
      have hxa : x - a = (x - (a + 1)) + 1 := by omega
      rw [if_pos h1, if_pos hc, hxa, List.getD_cons_succ]
    · rw [if_neg h1]
      by_cases h2 : x = a
      · subst h2
        have hc : x ≤ x ∧ x < x + (b :: t).length := by
          simp only [List.length_cons]
          omega
        rw [if_pos rfl, if_pos hc]
        simp
      · have hc : ¬ (a ≤ x ∧ x < a + (b :: t).length) := by
          simp only [List.length_cons]
          omega
        rw [if_neg (by exact h2), if_neg hc]

theorem readBytes_length (m : Mem) (a n : Nat) : (readBytes m a n).length = n := by
  induction n generalizing a with
  | zero => rfl
  | succ k ih => simp [readBytes, ih]

theorem readBytes_getD (m : Mem) (a : Nat) (n : Nat) (i : Nat) (h : i < n) :
    (readBytes m a n).getD i 0 = m (a + i) := by
  induction n generalizing a i with
  | zero => omega
  | succ k ih =>
    cases i with
    | zero => simp [readBytes]
    | succ j =>
      show (readBytes m (a + 1) k).getD j 0 = m (a + (j + 1))
      rw [ih (a + 1) j (by omega)]
      congr 1
      omega

theorem writeBytes_restore (m : Mem) (a : Nat) (src : List Nat) (x : Nat) :
    writeBytes (writeBytes m a src) a (readBytes m a src.length) x = m x := by
  rw [writeBytes_apply, writeBytes_apply, readBytes_length]
  by_cases h : a ≤ x ∧ x < a + src.length
  · rw [if_pos h, readBytes_getD m a src.length (x - a) (by omega)]
    congr 1
    omega
  · rw [if_neg h, if_neg h]

/-! ### Unfolding equations for the Patch Store operations -/

theorem tai_hook_func_abs_unpatched (s : TaiState) (pid a f : Nat)
    (hfind : s.patches.find? (keyMatch pid a) = none) :
    tai_hook_func_abs s pid a f =
      (Int.ofNat s.nextUid,
       { mem := fun x => if x = a then f else s.mem x,
         patches := { pid := pid, addr := a, kind := PatchKind.hook, size := 1,
                      original := [s.mem a],
                      chain := [{ uid := s.nextUid, func := f, next_ref := s.mem a }],
                      uid := s.nextUid } :: s.patches,
         nextUid := s.nextUid + 1 }) := by
  simp only [tai_hook_func_abs, hfind]

theorem tai_hook_func_abs_hooked (s : TaiState) (pid a f : Nat) (p : Patch)
    (hfind : s.patches.find? (keyMatch pid a) = some p)
    (hkind : p.kind = PatchKind.hook) :
    tai_hook_func_abs s pid a f =
      (Int.ofNat s.nextUid,
       { mem := fun x => if x = a then f else s.mem x,
         patches := updatePatchAt s.patches pid a
           (fun q => { q with chain := { uid := s.nextUid, func := f, next_ref := chainTop p } :: q.chain }),
         nextUid := s.nextUid + 1 }) := by
  simp only [tai_hook_func_abs, hfind]
  rw [if_neg (by simp [hkind])]

theorem tai_inject_abs_fresh (s : TaiState) (pid a : Nat) (src : List Nat)
    (hfind : s.patches.find? (keyMatch pid a) = none) :
    tai_inject_abs s pid a src =
      (Int.ofNat s.nextUid,
       { mem := writeBytes s.mem a src,
         patches := { pid := pid, addr := a, kind := PatchKind.injection, size := src.length,
                      original := readBytes s.mem a src.length,
                      chain := [],
                      uid := s.nextUid } :: s.patches,
         nextUid := s.nextUid + 1 }) := by
  simp only [tai_inject_abs, hfind]

theorem tai_inject_abs_patched (s : TaiState) (pid a : Nat) (src : List Nat) (p : Patch)
    (hfind : s.patches.find? (keyMatch pid a) = some p) :
    tai_inject_abs s pid a src = (TAI_ERROR_PATCH_EXISTS, s) := by
  simp only [tai_inject_abs, hfind]

theorem tai_inject_release_found (s : TaiState) (u : Nat) (p : Patch)
    (hfind : s.patches.find? (injMatch u) = some p) :
    tai_inject_release s u =
      (TAI_SUCCESS,
       { mem := writeBytes s.mem p.addr p.original,
         patches := s.patches.filter (fun q => ! injMatch u q),
         nextUid := s.nextUid }) := by
  simp only [tai_inject_release, hfind]

theorem tai_inject_release_cons_pos (m : Mem) (ps : List Patch) (n u : Nat) (p : Patch)
    (hp : injMatch u p = true) :
    tai_inject_release { mem := m, patches := p :: ps, nextUid := n } u =
      (TAI_SUCCESS,
       { mem := writeBytes m p.addr p.original,
         patches := (p :: ps).filter (fun q => ! injMatch u q),
         nextUid := n }) := by
  simp only [tai_inject_release, List.find?_cons_of_pos _ hp]

theorem tai_hook_release_head_last (s : TaiState) (u : Nat) (p : Patch) (e : HookEntry)
    (hfind : s.patches.find? (chainHas u) = some p)
    (hchain : p.chain = [e]) (huid : e.uid = u) :
    tai_hook_release s u =
      (TAI_SUCCESS,
       { mem := fun x => if x = p.addr then e.next_ref else s.mem x,
         patches := s.patches.filter (fun q => ! keyMatch p.pid p.addr q),
         nextUid := s.nextUid }) := by
  simp only [tai_hook_release, hfind, hchain]
  simp [huid]

theorem tai_hook_release_head_more (s : TaiState) (u : Nat) (p : Patch) (e : HookEntry)
    (rest : List HookEntry)
    (hfind : s.patches.find? (chainHas u) = some p)
    (hchain : p.chain = e :: rest) (huid : e.uid = u) (hrest : rest ≠ []) :
    tai_hook_release s u =
      (TAI_SUCCESS,
       { mem := fun x => if x = p.addr then e.next_ref else s.mem x,
         patches := updatePatchAt s.patches p.pid p.addr (fun q => { q with chain := rest }),
         nextUid := s.nextUid }) := by
  have he : rest.isEmpty = false := by
    cases rest with
    | nil => exact absurd rfl hrest
    | cons x t => rfl
  simp only [tai_hook_release, hfind, hchain]
  simp [huid, he]

theorem tai_hook_release_nonhead (s : TaiState) (u : Nat) (p : Patch) (e : HookEntry)
    (rest : List HookEntry)
    (hfind : s.patches.find? (chainHas u) = some p)
    (hchain : p.chain = e :: rest) (huid : e.uid ≠ u) :
    tai_hook_release s u =
      (TAI_SUCCESS,
       { mem := s.mem,
         patches := updatePatchAt s.patches p.pid p.addr
           (fun q => { q with chain := unlinkChain u q.chain }),
         nextUid := s.nextUid }) := by
  simp only [tai_hook_release, hfind, hchain]
  simp [huid]

theorem updatePatchAt_split (pre post : List Patch) (p : Patch) (pid a : Nat)
    (g : Patch → Patch)
    (hpre : ∀ q ∈ pre, keyMatch pid a q = false)
    (hpost : ∀ q ∈ post, keyMatch pid a q = false)
    (hp : keyMatch pid a p = true) :
    updatePatchAt (pre ++ p :: post) pid a g = pre ++ g p :: post := by
  unfold updatePatchAt
  rw [List.map_append, List.map_cons,
    map_self_of_eq _ pre (fun q hq => by simp [hpre q hq]),
    map_self_of_eq _ post (fun q hq => by simp [hpost q hq])]
  simp [hp]

theorem filter_out_split (pre post : List Patch) (p : Patch) (pr : Patch → Bool)
    (hpre : ∀ q ∈ pre, pr q = true) (hpost : ∀ q ∈ post, pr q = true)
    (hp : pr p = false) :
    (pre ++ p :: post).filter pr = pre ++ post := by
  rw [List.filter_append, filter_self_of_true pr pre hpre,
    List.filter_cons_of_neg (by simp [hp]), filter_self_of_true pr post hpost]

/-! ### Claim C1: install immediately followed by release restores memory -/

/-- C1: on a state whose (pid, address) target is not currently patched
(and whose next handle is fresh), installing a hook and immediately
releasing the returned handle, or installing an injection and immediately
releasing the returned handle, restores target memory byte-for-byte to the
pre-install content, and the patch table returns to its prior value. -/
theorem C1_install_release_roundtrip (s : TaiState) (pid a hook_func : Nat)
    (src : List Nat)
    (hnokey : ∀ q ∈ s.patches, keyMatch pid a q = false)
    (hfresh : ∀ q ∈ s.patches, q.uid ≠ s.nextUid) :
    ((taiHookFunctionAbs s pid a hook_func).1 = Int.ofNat s.nextUid
      ∧ (taiHookReleaseForKernel (taiHookFunctionAbs s pid a hook_func).2 s.nextUid).1 = TAI_SUCCESS
      ∧ (∀ x, (taiHookReleaseForKernel (taiHookFunctionAbs s pid a hook_func).2 s.nextUid).2.mem x = s.mem x)
      ∧ (taiHookReleaseForKernel (taiHookFunctionAbs s pid a hook_func).2 s.nextUid).2.patches = s.patches)
    ∧ ((taiInjectAbsForKernel s pid a src).1 = Int.ofNat s.nextUid
      ∧ (taiInjectReleaseForKernel (taiInjectAbsForKernel s pid a src).2 s.nextUid).1 = TAI_SUCCESS
      ∧ (∀ x, (taiInjectReleaseForKernel (taiInjectAbsForKernel s pid a src).2 s.nextUid).2.mem x = s.mem x)
      ∧ (taiInjectReleaseForKernel (taiInjectAbsForKernel s pid a src).2 s.nextUid).2.patches = s.patches) := by
  obtain ⟨m, ps, n⟩ := s
  simp only at hnokey hfresh
  have hfind : ps.find? (keyMatch pid a) = none :=
    List.find?_eq_none.mpr (fun q hq => by simp [hnokey q hq])
  constructor
  · simp only [taiHookFunctionAbs, tai_hook_func_abs, hfind]
    simp only [taiHookReleaseForKernel, tai_hook_release]
    rw [List.find?_cons_of_pos _ (by simp [chainHas])]
    simp only [List.isEmpty_nil, if_true, beq_self_eq_true, if_pos]
    refine ⟨trivial, trivial, fun x => ?_, ?_⟩
    · by_cases hx : x = a <;> simp [hx]
    · show List.filter _ (_ :: ps) = ps
      rw [List.filter_cons_of_neg (by simp [keyMatch]),
        filter_self_of_true _ ps (fun q hq => by simp [hnokey q hq])]
  · simp only [taiInjectAbsForKernel, tai_inject_abs, hfind]
    simp only [taiInjectReleaseForKernel]
    rw [tai_inject_release_cons_pos _ _ _ _ _ (by simp [injMatch])]
    refine ⟨trivial, rfl, fun x => writeBytes_restore m a src x, ?_⟩
    · rw [List.filter_cons_of_neg (by simp [injMatch]),
        filter_self_of_true _ ps
          (fun q hq => by simp [injMatch, hfresh q hq])]

theorem C1_install_release_roundtrip_witness :
    ((taiHookFunctionAbs emptyState 1 5 40).1 = Int.ofNat 7
      ∧ (taiHookReleaseForKernel (taiHookFunctionAbs emptyState 1 5 40).2 7).1 = TAI_SUCCESS
      ∧ (∀ x, (taiHookReleaseForKernel (taiHookFunctionAbs emptyState 1 5 40).2 7).2.mem x = emptyState.mem x)
      ∧ (taiHookReleaseForKernel (taiHookFunctionAbs emptyState 1 5 40).2 7).2.patches = emptyState.patches)
    ∧ ((taiInjectAbsForKernel emptyState 1 5 [8, 9]).1 = Int.ofNat 7
      ∧ (taiInjectReleaseForKernel (taiInjectAbsForKernel emptyState 1 5 [8, 9]).2 7).1 = TAI_SUCCESS
      ∧ (∀ x, (taiInjectReleaseForKernel (taiInjectAbsForKernel emptyState 1 5 [8, 9]).2 7).2.mem x = emptyState.mem x)
      ∧ (taiInjectReleaseForKernel (taiInjectAbsForKernel emptyState 1 5 [8, 9]).2 7).2.patches = emptyState.patches) :=
  C1_install_release_roundtrip emptyState 1 5 40 [8, 9]
    (by intro q hq; simp [emptyState] at hq) (by intro q hq; simp [emptyState] at hq)

/-! ### Claim C5: stale or unknown handles -/

/-- C5: releasing a handle held by no active patch — already released or
never issued — fails with the InvalidHandle condition and performs no
mutation at all (memory and every active patch unchanged), for both the
hook release and the injection release entry points. -/
theorem C5_invalid_handle_no_mutation (s : TaiState) (u : Nat)
    (hh : ∀ q ∈ s.patches, chainHas u q = false)
    (hi : ∀ q ∈ s.patches, injMatch u q = false) :
    taiHookReleaseForKernel s u = (TAI_ERROR_NOT_FOUND, s)
    ∧ taiInjectReleaseForKernel s u = (TAI_ERROR_NOT_FOUND, s) := by
  have h1 : s.patches.find? (chainHas u) = none :=
    List.find?_eq_none.mpr (fun q hq => by simp [hh q hq])
  have h2 : s.patches.find? (injMatch u) = none :=
    List.find?_eq_none.mpr (fun q hq => by simp [hi q hq])
  constructor
  · show tai_hook_release s u = _
    unfold tai_hook_release
    rw [h1]
  · show tai_inject_release s u = _
    unfold tai_inject_release
    rw [h2]

/-- Example state holding one single-entry hook chain at (pid 1, address 5)
with handle 7, used by concrete witnesses. -/
def hookedState : TaiState :=
  { mem := fun x => if x = 5 then 40 else x + 100,
    patches := [{ pid := 1, addr := 5, kind := PatchKind.hook, size := 1,
                  original := [105],
                  chain := [{ uid := 7, func := 40, next_ref := 105 }],
                  uid := 7 }],
    nextUid := 8 }

theorem C5_invalid_handle_no_mutation_witness :
    taiHookReleaseForKernel hookedState 3 = (TAI_ERROR_NOT_FOUND, hookedState)
    ∧ taiInjectReleaseForKernel hookedState 3 = (TAI_ERROR_NOT_FOUND, hookedState) :=
  C5_invalid_handle_no_mutation hookedState 3 (by decide) (by decide)

/-! ### Claim C4: injections never chain, hooks do -/

/-- C4: an injection install targeting a (pid, address) that already holds
any active patch fails with the patch-exists error and leaves the state —
the existing patch and target memory — entirely unchanged, so injections
never extend a chain; a hook install at an address already holding a hook
patch succeeds with a fresh handle and extends the existing chain by one
entry whose call-through reference is the previously active redirect. -/
theorem C4_inject_exists_hook_chains (s : TaiState) (pid a f : Nat)
    (src : List Nat) (p : Patch) (pre post : List Patch)
    (hsplit : s.patches = pre ++ p :: post)
    (hpid : p.pid = pid) (haddr : p.addr = a)
    (hpre : ∀ q ∈ pre, keyMatch pid a q = false)
    (hpost : ∀ q ∈ post, keyMatch pid a q = false) :
    taiInjectAbsForKernel s pid a src = (TAI_ERROR_PATCH_EXISTS, s)
    ∧ (p.kind = PatchKind.hook →
        (taiHookFunctionAbs s pid a f).1 = Int.ofNat s.nextUid
        ∧ 0 ≤ (taiHookFunctionAbs s pid a f).1
        ∧ (taiHookFunctionAbs s pid a f).2.patches =
            pre ++ { p with chain := { uid := s.nextUid, func := f, next_ref := chainTop p } :: p.chain } :: post
        ∧ patchChainAt (taiHookFunctionAbs s pid a f).2 pid a =
            some ({ uid := s.nextUid, func := f, next_ref := chainTop p } :: p.chain)) := by
  have hp : keyMatch pid a p = true := by simp [keyMatch, hpid, haddr]
  have hfind : s.patches.find? (keyMatch pid a) = some p := by
    rw [hsplit, find?_append_of_none _ pre _ hpre, List.find?_cons_of_pos _ hp]
  constructor
  · exact tai_inject_abs_patched s pid a src p hfind
  · intro hkind
    obtain ⟨m, ps, n⟩ := s
    simp only at hfind hsplit
    subst hsplit
    have habs : taiHookFunctionAbs ⟨m, pre ++ p :: post, n⟩ pid a f =
        (Int.ofNat n,
         { mem := fun x => if x = a then f else m x,
           patches := updatePatchAt (pre ++ p :: post) pid a
             (fun q => { q with chain := { uid := n, func := f, next_ref := chainTop p } :: q.chain }),
           nextUid := n + 1 }) := by
      simp only [taiHookFunctionAbs, tai_hook_func_abs, hfind]
      rw [if_neg (by simp [hkind])]
    have hpatches : updatePatchAt (pre ++ p :: post) pid a
        (fun q => { q with chain := { uid := n, func := f, next_ref := chainTop p } :: q.chain }) =
        pre ++ { p with chain := { uid := n, func := f, next_ref := chainTop p } :: p.chain } :: post :=
      updatePatchAt_split pre post p pid a _ hpre hpost hp
    rw [habs]
    refine ⟨rfl, Int.ofNat_nonneg n, hpatches, ?_⟩
    simp only [patchChainAt, hpatches]
    rw [find?_append_of_none _ pre _ hpre,
      List.find?_cons_of_pos _ (by simp [keyMatch, hpid, haddr])]
    rfl

theorem C4_inject_exists_hook_chains_witness :
    taiInjectAbsForKernel hookedState 1 5 [9] = (TAI_ERROR_PATCH_EXISTS, hookedState)
    ∧ ((taiHookFunctionAbs hookedState 1 5 60).1 = Int.ofNat 8
        ∧ 0 ≤ (taiHookFunctionAbs hookedState 1 5 60).1
        ∧ (taiHookFunctionAbs hookedState 1 5 60).2.patches =
            [] ++ { pid := 1, addr := 5, kind := PatchKind.hook, size := 1,
                    original := [105],
                    chain := { uid := 8, func := 60,
                               next_ref := chainTop { pid := 1, addr := 5, kind := PatchKind.hook, size := 1,
                                                      original := [105],
                                                      chain := [{ uid := 7, func := 40, next_ref := 105 }],
                                                      uid := 7 } } ::
                      [{ uid := 7, func := 40, next_ref := 105 }],
                    uid := 7 } :: []
        ∧ patchChainAt (taiHookFunctionAbs hookedState 1 5 60).2 1 5 =
            some ({ uid := 8, func := 60,
                    next_ref := chainTop { pid := 1, addr := 5, kind := PatchKind.hook, size := 1,
                                           original := [105],
                                           chain := [{ uid := 7, func := 40, next_ref := 105 }],
                                           uid := 7 } } ::
              [{ uid := 7, func := 40, next_ref := 105 }])) := by
  have h := C4_inject_exists_hook_chains hookedState 1 5 60 [9]
    { pid := 1, addr := 5, kind := PatchKind.hook, size := 1,
      original := [105], chain := [{ uid := 7, func := 40, next_ref := 105 }], uid := 7 }
    [] [] (by rfl) rfl rfl (by intro q hq; simp at hq) (by intro q hq; simp at hq)
  exact ⟨h.1, h.2 rfl⟩

/-! ### Claim C9: serialized same-address injection installs -/

theorem injectSeq_all_fail (pid a : Nat) (s : TaiState) (srcs : List (List Nat))
    (p : Patch) (hfind : s.patches.find? (keyMatch pid a) = some p) :
    injectSeq pid a s srcs = (srcs.map fun _ => TAI_ERROR_PATCH_EXISTS, s) := by
  induction srcs with
  | nil => rfl
  | cons src rest ih =>
    have h1 : taiInjectAbsForKernel s pid a src = (TAI_ERROR_PATCH_EXISTS, s) :=
      tai_inject_abs_patched s pid a src p hfind
    simp [injectSeq, h1, ih]

/-- C9: for any serialization order of a set of install calls of the
non-chaining kind (injections) targeting the same exact (pid, address) of
an unpatched state — the spec serializes same-address installs — exactly
the first call succeeds with a fresh handle, every other call fails with
the patch-exists error, the stored original-content record of the winner is
the true pre-patch content, and memory holds exactly the winner's write. -/
theorem C9_concurrent_inject_single_winner (s : TaiState) (pid a : Nat)
    (src0 : List Nat) (rest : List (List Nat))
    (hnokey : ∀ q ∈ s.patches, keyMatch pid a q = false) :
    (injectSeq pid a s (src0 :: rest)).1
      = Int.ofNat s.nextUid :: rest.map (fun _ => TAI_ERROR_PATCH_EXISTS)
    ∧ 0 ≤ Int.ofNat s.nextUid
    ∧ (injectSeq pid a s (src0 :: rest)).2.patches =
        { pid := pid, addr := a, kind := PatchKind.injection, size := src0.length,
          original := readBytes s.mem a src0.length,
          chain := [], uid := s.nextUid } :: s.patches
    ∧ (∀ x, (injectSeq pid a s (src0 :: rest)).2.mem x = writeBytes s.mem a src0 x) := by
  have hfind : s.patches.find? (keyMatch pid a) = none :=
    List.find?_eq_none.mpr (fun q hq => by simp [hnokey q hq])
  have h1 : taiInjectAbsForKernel s pid a src0 = _ := tai_inject_abs_fresh s pid a src0 hfind
  have h2 := injectSeq_all_fail pid a
    { mem := writeBytes s.mem a src0,
      patches := { pid := pid, addr := a, kind := PatchKind.injection, size := src0.length,
                   original := readBytes s.mem a src0.length,
                   chain := [], uid := s.nextUid } :: s.patches,
      nextUid := s.nextUid + 1 }
    rest
    { pid := pid, addr := a, kind := PatchKind.injection, size := src0.length,
      original := readBytes s.mem a src0.length,
      chain := [], uid := s.nextUid }
    (List.find?_cons_of_pos _ (by simp [keyMatch]))
  refine ⟨?_, Int.ofNat_nonneg s.nextUid, ?_, fun x => ?_⟩ <;>
    simp [injectSeq, h1, h2]

theorem C9_concurrent_inject_single_winner_witness :
    (injectSeq 1 5 emptyState [[8], [9], [11]]).1
      = Int.ofNat 7 :: [[9], [11]].map (fun _ => TAI_ERROR_PATCH_EXISTS)
    ∧ 0 ≤ Int.ofNat 7
    ∧ (injectSeq 1 5 emptyState [[8], [9], [11]]).2.patches =
        { pid := 1, addr := 5, kind := PatchKind.injection, size := [8].length,
          original := readBytes emptyState.mem 5 [8].length,
          chain := [], uid := 7 } :: emptyState.patches
    ∧ (∀ x, (injectSeq 1 5 emptyState [[8], [9], [11]]).2.mem x = writeBytes emptyState.mem 5 [8] x) :=
  C9_concurrent_inject_single_winner emptyState 1 5 [8] [[9], [11]]
    (by intro q hq; simp [emptyState] at hq)

/-! ### Claim C2: chain structure under releases in any order -/

theorem mem_uid_mkChain (orig : Nat) (l : List (Nat × Nat)) (u : Nat) :
    ((mkChain orig l).any (fun e => e.uid == u)) = true ↔ u ∈ l.map Prod.fst := by
  induction l with
  | nil => simp [mkChain]
  | cons x rest ih =>
    cases x with
    | mk a b =>
      simp only [mkChain, List.any_cons, List.map_cons, List.mem_cons,
        Bool.or_eq_true, ih, beq_iff_eq]
      exact or_congr eq_comm Iff.rfl

theorem removeU_cons_ne (u a f : Nat) (l : List (Nat × Nat)) (h : a ≠ u) :
    removeU u ((a, f) :: l) = (a, f) :: removeU u l := by
  unfold removeU
  rw [List.filter_cons_of_pos (by simp [h])]

theorem removeU_cons_eq (u f : Nat) (l : List (Nat × Nat)) :
    removeU u ((u, f) :: l) = removeU u l := by
  unfold removeU
  rw [List.filter_cons_of_neg (by simp)]

theorem removeU_eq_of_not_mem (u : Nat) (l : List (Nat × Nat))
    (h : u ∉ l.map Prod.fst) : removeU u l = l := by
  refine filter_self_of_true _ l (fun x hx => ?_)
  have hne : x.1 ≠ u := fun heq => h (heq ▸ List.mem_map_of_mem Prod.fst hx)
  simp [hne]

theorem map_fst_removeU (u : Nat) (l : List (Nat × Nat)) :
    (removeU u l).map Prod.fst = (l.map Prod.fst).filter (fun x => x != u) := by
  induction l with
  | nil => rfl
  | cons x t ih =>
    cases x with
    | mk a b =>
      by_cases hau : a = u
      · subst hau
        rw [removeU_cons_eq, ih, List.map_cons,
          List.filter_cons_of_neg (by simp)]
      · rw [removeU_cons_ne u a b t hau, List.map_cons, List.map_cons,
          List.filter_cons_of_pos (by simp [hau]), ih]

theorem mem_map_fst_removeU (u x : Nat) (l : List (Nat × Nat))
    (h : x ∈ (removeU u l).map Prod.fst) : x ∈ l.map Prod.fst := by
  rw [map_fst_removeU] at h
  exact List.mem_of_mem_filter h

theorem nodup_map_fst_removeU (u : Nat) (l : List (Nat × Nat))
    (h : (l.map Prod.fst).Nodup) : ((removeU u l).map Prod.fst).Nodup := by
  rw [map_fst_removeU]
  exact h.filter _

theorem unlinkChain_cons2_pos (u : Nat) (e e2 : HookEntry) (rest : List HookEntry)
    (h : e2.uid = u) :
    unlinkChain u (e :: e2 :: rest) = { e with next_ref := e2.next_ref } :: rest := by
  simp only [unlinkChain]
  rw [if_pos (by simp [h])]

theorem unlinkChain_cons2_neg (u : Nat) (e e2 : HookEntry) (rest : List HookEntry)
    (h : e2.uid ≠ u) :
    unlinkChain u (e :: e2 :: rest) = e :: unlinkChain u (e2 :: rest) := by
  simp only [unlinkChain]
  rw [if_neg (by simp [h])]

theorem unlinkChain_mkChain (orig u : Nat) : ∀ (l : List (Nat × Nat)) (a f : Nat),
    (((a, f) :: l).map Prod.fst).Nodup → a ≠ u → u ∈ l.map Prod.fst →
    unlinkChain u (mkChain orig ((a, f) :: l)) = mkChain orig ((a, f) :: removeU u l) := by
  intro l
  induction l with
  | nil =>
    intro a f _ _ hu
    simp at hu
  | cons x t ih =>
    cases x with
    | mk a2 f2 =>
      intro a f hnodup hau hu
      have hmk : mkChain orig ((a, f) :: (a2, f2) :: t) =
          { uid := a, func := f, next_ref := f2 } ::
            { uid := a2, func := f2, next_ref := headFunc orig t } :: mkChain orig t := rfl
      by_cases h2 : a2 = u
      · subst h2
        have hnm : a2 ∉ t.map Prod.fst := by
          have h3 := hnodup.of_cons
          rw [List.map_cons, List.nodup_cons] at h3
          exact h3.1
        rw [hmk, unlinkChain_cons2_pos a2 _ _ _ rfl, removeU_cons_eq,
          removeU_eq_of_not_mem a2 t hnm]
        rfl
      · have hu2 : u ∈ t.map Prod.fst := by
          rcases (by simpa using hu : u = a2 ∨ u ∈ t.map Prod.fst) with h | h
          · exact absurd h.symm h2
          · exact h
        have hrec := ih a2 f2 hnodup.of_cons h2 hu2
        rw [hmk, unlinkChain_cons2_neg u _ _ _ (by simpa using h2)]
        rw [show ({ uid := a2, func := f2, next_ref := headFunc orig t } :: mkChain orig t : List HookEntry) =
          mkChain orig ((a2, f2) :: t) from rfl, hrec, removeU_cons_ne u a2 f2 t h2]
        rfl

/-- Single release step on a canonically chained address: the release
succeeds, target memory always shows the remaining topmost hook (or the
original content), other memory is untouched, releasing a non-topmost
entry touches no memory at all, and the remaining chain is the canonical
chain of the remaining install list (the record disappearing when the
chain empties). -/
theorem release_step (s : TaiState) (pre post : List Patch) (pid a orig : Nat)
    (l : List (Nat × Nat)) (p : Patch) (u : Nat)
    (hch : ChainedAt s pre post pid a orig l p)
    (hu : u ∈ l.map Prod.fst) :
    (tai_hook_release s u).1 = TAI_SUCCESS
    ∧ (∀ x, x ≠ a → (tai_hook_release s u).2.mem x = s.mem x)
    ∧ (tai_hook_release s u).2.mem a = headFunc orig (removeU u l)
    ∧ (headUid l ≠ some u → (tai_hook_release s u).2.mem = s.mem)
    ∧ (removeU u l = [] → (tai_hook_release s u).2.patches = pre ++ post)
    ∧ (removeU u l ≠ [] →
        ChainedAt (tai_hook_release s u).2 pre post pid a orig (removeU u l)
          { p with chain := mkChain orig (removeU u l) }) := by
  unfold ChainedAt at hch
  obtain ⟨hsplit, hpid, haddr, hkind, hchain, hmem, hnodup, hprek, hpostk, hpreu, hpostu⟩ := hch
  have hfind : s.patches.find? (chainHas u) = some p := by
    rw [hsplit, find?_append_of_none _ pre _ (fun q hq => hpreu q hq u hu),
      List.find?_cons_of_pos _ (by rw [chainHas, hchain]; exact (mem_uid_mkChain orig l u).mpr hu)]
  have hprek2 : ∀ q ∈ pre, keyMatch p.pid p.addr q = false := by
    rw [hpid, haddr]
    exact hprek
  have hpostk2 : ∀ q ∈ post, keyMatch p.pid p.addr q = false := by
    rw [hpid, haddr]
    exact hpostk
  cases l with
  | nil => simp at hu
  | cons hd tl =>
    cases hd with
    | mk u1 f1 =>
      have hnodup' : (tl.map Prod.fst).Nodup := by
        rw [List.map_cons, List.nodup_cons] at hnodup
        exact hnodup.2
      have hu1nm : u1 ∉ tl.map Prod.fst := by
        rw [List.map_cons, List.nodup_cons] at hnodup
        exact hnodup.1
      by_cases hu1 : u1 = u
      · -- topmost release
        subst hu1
        have hrem : removeU u1 ((u1, f1) :: tl) = tl := by
          rw [removeU_cons_eq, removeU_eq_of_not_mem u1 tl hu1nm]
        cases tl with
        | nil =>
          have hchain1 : p.chain = [{ uid := u1, func := f1, next_ref := orig }] := by
            rw [hchain]
            rfl
          have hrel := tai_hook_release_head_last s u1 p
            { uid := u1, func := f1, next_ref := orig } hfind hchain1 rfl
          rw [hrel]
          refine ⟨rfl, fun x hx => ?_, ?_, fun hne => ?_, fun _ => ?_, fun hne => ?_⟩
          · exact if_neg (by rw [haddr]; exact hx)
          · rw [hrem]
            show (if a = p.addr then orig else s.mem a) = orig
            rw [if_pos haddr.symm]
          · simp [headUid] at hne
          · show List.filter _ s.patches = _
            rw [hsplit, hpid, haddr]
            exact filter_out_split pre post p _
              (fun q hq => by simp [hprek q hq])
              (fun q hq => by simp [hpostk q hq])
              (by simp [keyMatch, hpid, haddr])
          · exact absurd hrem hne
        | cons hd2 tl2 =>
          cases hd2 with
          | mk u2 f2 =>
            have hchain1 : p.chain =
                { uid := u1, func := f1, next_ref := f2 } :: mkChain orig ((u2, f2) :: tl2) := by
              rw [hchain]
              rfl
            have hrel := tai_hook_release_head_more s u1 p
              { uid := u1, func := f1, next_ref := f2 } (mkChain orig ((u2, f2) :: tl2))
              hfind hchain1 rfl (by simp [mkChain])
            rw [hrel]
            have hupd : updatePatchAt s.patches p.pid p.addr
                (fun q => { q with chain := mkChain orig ((u2, f2) :: tl2) }) =
                pre ++ { p with chain := mkChain orig ((u2, f2) :: tl2) } :: post := by
              rw [hsplit]
              exact updatePatchAt_split pre post p p.pid p.addr _ hprek2 hpostk2
                (by simp [keyMatch])
            refine ⟨rfl, fun x hx => ?_, ?_, fun hne => ?_, fun hemp => ?_, fun _ => ?_⟩
            · exact if_neg (by rw [haddr]; exact hx)
            · rw [hrem]
              show (if a = p.addr then f2 else s.mem a) = headFunc orig ((u2, f2) :: tl2)
              rw [if_pos haddr.symm]
              rfl
            · simp [headUid] at hne
            · rw [hrem] at hemp
              exact absurd hemp (by simp)
            · rw [hrem]
              refine ⟨hupd, hpid, haddr, hkind, rfl, ?_, hnodup', ?_, ?_, ?_, ?_⟩
              · show (if a = p.addr then f2 else s.mem a) = _
                rw [if_pos haddr.symm]
                rfl
              · exact hprek
              · exact hpostk
              · exact fun q hq v hv => hpreu q hq v (by
                  rw [List.map_cons]
                  exact List.mem_cons_of_mem u1 hv)
              · exact fun q hq v hv => hpostu q hq v (by
                  rw [List.map_cons]
                  exact List.mem_cons_of_mem u1 hv)
      · -- non-topmost release
        have hu2 : u ∈ tl.map Prod.fst := by
          rcases (by simpa using hu : u = u1 ∨ u ∈ tl.map Prod.fst) with h | h
          · exact absurd h.symm hu1
          · exact h
        have hchain1 : p.chain =
            { uid := u1, func := f1, next_ref := headFunc orig tl } :: mkChain orig tl := by
          rw [hchain]
          rfl
        have hrel := tai_hook_release_nonhead s u p
          { uid := u1, func := f1, next_ref := headFunc orig tl } (mkChain orig tl)
          hfind hchain1 hu1
        rw [hrel]
        have hrem : removeU u ((u1, f1) :: tl) = (u1, f1) :: removeU u tl :=
          removeU_cons_ne u u1 f1 tl hu1
        have hunl : unlinkChain u p.chain = mkChain orig ((u1, f1) :: removeU u tl) := by
          rw [hchain]
          exact unlinkChain_mkChain orig u tl u1 f1 hnodup hu1 hu2
        have hupd : updatePatchAt s.patches p.pid p.addr
            (fun q => { q with chain := unlinkChain u q.chain }) =
            pre ++ { p with chain := unlinkChain u p.chain } :: post := by
          rw [hsplit]
          exact updatePatchAt_split pre post p p.pid p.addr _ hprek2 hpostk2
            (by simp [keyMatch])
        refine ⟨rfl, fun x _ => rfl, ?_, fun _ => rfl, fun hemp => ?_, fun _ => ?_⟩
        · rw [hrem]
          show s.mem a = f1
          rw [hmem]
          rfl
        · rw [hrem] at hemp
          exact absurd hemp (by simp)
        · rw [hrem]
          refine ⟨?_, hpid, haddr, hkind, rfl, ?_, ?_, hprek, hpostk, ?_, ?_⟩
          · show updatePatchAt s.patches p.pid p.addr _ = _
            rw [hupd, hunl]
          · show s.mem a = _
            rw [hmem]
            rfl
          · rw [List.map_cons, List.nodup_cons]
            exact ⟨fun hmem1 => hu1nm (mem_map_fst_removeU u u1 tl hmem1),
              nodup_map_fst_removeU u tl hnodup'⟩
          · intro q hq v hv
            refine hpreu q hq v ?_
            rcases (by simpa using hv : v = u1 ∨ v ∈ (removeU u tl).map Prod.fst) with h | h
            · rw [List.map_cons, h]
              exact List.mem_cons_self u1 _
            · rw [List.map_cons]
              exact List.mem_cons_of_mem u1 (mem_map_fst_removeU u v tl h)
          · intro q hq v hv
            refine hpostu q hq v ?_
            rcases (by simpa using hv : v = u1 ∨ v ∈ (removeU u tl).map Prod.fst) with h | h
            · rw [List.map_cons, h]
              exact List.mem_cons_self u1 _
            · rw [List.map_cons]
              exact List.mem_cons_of_mem u1 (mem_map_fst_removeU u v tl h)

/-- Releasing, in any order, every hook of a canonically chained address
restores the original content at that address, touches no other memory and
removes the patch record. -/
theorem releaseSeq_chain (us : List Nat) :
    ∀ (s : TaiState) (pre post : List Patch) (pid a orig : Nat)
      (l : List (Nat × Nat)) (p : Patch),
    ChainedAt s pre post pid a orig l p →
    us.Perm (l.map Prod.fst) → l ≠ [] →
    (releaseSeq s us).mem a = orig
    ∧ (∀ x, x ≠ a → (releaseSeq s us).mem x = s.mem x)
    ∧ (releaseSeq s us).patches = pre ++ post := by
  induction us with
  | nil =>
    intro s pre post pid a orig l p hch hperm hne
    have : l.map Prod.fst = [] := (hperm.symm).eq_nil
    exact absurd (List.map_eq_nil_iff.mp this) hne
  | cons u us ih =>
    intro s pre post pid a orig l p hch hperm hne
    have hu : u ∈ l.map Prod.fst := hperm.subset (List.mem_cons_self u us)
    have hnodup : (l.map Prod.fst).Nodup := by
      unfold ChainedAt at hch
      exact hch.2.2.2.2.2.2.1
    obtain ⟨hsucc, hmemne, hmema, hmemeq, hempty, hchained⟩ :=
      release_step s pre post pid a orig l p u hch hu
    have hperm2 : us.Perm ((removeU u l).map Prod.fst) := by
      have heq : (removeU u l).map Prod.fst = (l.map Prod.fst).erase u := by
        rw [map_fst_removeU, hnodup.erase_eq_filter u]
      rw [heq]
      exact (hperm.trans (List.perm_cons_erase hu)).cons_inv
    simp only [releaseSeq]
    by_cases hrem : removeU u l = []
    · have hus : us = [] := by
        refine List.Perm.eq_nil ?_
        rw [hrem] at hperm2
        exact hperm2
      subst hus
      refine ⟨?_, ?_, ?_⟩
      · show (taiHookReleaseForKernel s u).2.mem a = orig
        rw [show (taiHookReleaseForKernel s u) = tai_hook_release s u from rfl, hmema, hrem]
        rfl
      · intro x hx
        exact hmemne x hx
      · exact hempty hrem
    · obtain ⟨ha, hb, hc⟩ := ih (taiHookReleaseForKernel s u).2 pre post pid a orig
        (removeU u l) { p with chain := mkChain orig (removeU u l) }
        (hchained hrem) hperm2 hrem
      refine ⟨ha, fun x hx => ?_, hc⟩
      rw [hb x hx]
      exact hmemne x hx

/-- C2: for an address holding a chain of installed hooks (canonical chain
of an install list with the topmost redirect in memory), releasing any one
hook succeeds and keeps every remaining hook's call-through reference
resolving to the correct next element (the remaining chain is exactly the
canonical chain of the remaining installs): releasing a non-topmost entry
touches no target memory, releasing the topmost entry makes the next entry
the active redirect, and — releasing all hooks in any order — the target
memory ends equal to the pre-chain original content with the record gone
and all other memory untouched. -/
theorem C2_chain_release_any_order (s : TaiState) (pre post : List Patch)
    (pid a orig : Nat) (l : List (Nat × Nat)) (p : Patch) (u : Nat) (us : List Nat)
    (hch : ChainedAt s pre post pid a orig l p)
    (hu : u ∈ l.map Prod.fst)
    (hus : us.Perm (l.map Prod.fst)) :
    ((taiHookReleaseForKernel s u).1 = TAI_SUCCESS
      ∧ (taiHookReleaseForKernel s u).2.mem a = headFunc orig (removeU u l)
      ∧ (∀ x, x ≠ a → (taiHookReleaseForKernel s u).2.mem x = s.mem x)
      ∧ (headUid l ≠ some u → (taiHookReleaseForKernel s u).2.mem = s.mem)
      ∧ (removeU u l = [] → (taiHookReleaseForKernel s u).2.patches = pre ++ post)
      ∧ (removeU u l ≠ [] →
          patchChainAt (taiHookReleaseForKernel s u).2 pid a =
            some (mkChain orig (removeU u l))))
    ∧ ((releaseSeq s us).mem a = orig
      ∧ (∀ x, x ≠ a → (releaseSeq s us).mem x = s.mem x)
      ∧ (releaseSeq s us).patches = pre ++ post) := by
  have hne : l ≠ [] := by
    intro h
    rw [h] at hu
    simp at hu
  obtain ⟨hsucc, hmemne, hmema, hmemeq, hempty, hchained⟩ :=
    release_step s pre post pid a orig l p u hch hu
  refine ⟨⟨hsucc, hmema, hmemne, hmemeq, hempty, fun hrem => ?_⟩,
    releaseSeq_chain us s pre post pid a orig l p hch hus hne⟩
  have hchx := hchained hrem
  unfold ChainedAt at hchx
  obtain ⟨hsplit2, hpid2, haddr2, _, hchain2, _, _, hprek2, _, _, _⟩ := hchx
  show patchChainAt (tai_hook_release s u).2 pid a = some (mkChain orig (removeU u l))
  unfold patchChainAt
  rw [hsplit2, find?_append_of_none _ pre _ hprek2,
    List.find?_cons_of_pos _ (by
      simp only [keyMatch, Bool.and_eq_true, beq_iff_eq]
      exact ⟨hpid2, haddr2⟩)]
  rfl

/-- Example record with a three-hook chain at (pid 1, address 5): hooks 7,
8, 9 installed in that order, so the install list topmost-first is
[(9, 60), (8, 50), (7, 40)] over original content 105. -/
def chainedPatch : Patch :=
  { pid := 1, addr := 5, kind := PatchKind.hook, size := 1,
    original := [105],
    chain := mkChain 105 [(9, 60), (8, 50), (7, 40)],
    uid := 7 }

/-- Example state holding `chainedPatch` with the topmost redirect active. -/
def chainedState : TaiState :=
  { mem := fun x => if x = 5 then 60 else x + 100,
    patches := [chainedPatch],
    nextUid := 10 }

theorem C2_chain_release_any_order_witness :
    ((taiHookReleaseForKernel chainedState 8).1 = TAI_SUCCESS
      ∧ (taiHookReleaseForKernel chainedState 8).2.mem 5 =
          headFunc 105 (removeU 8 [(9, 60), (8, 50), (7, 40)])
      ∧ (∀ x, x ≠ 5 → (taiHookReleaseForKernel chainedState 8).2.mem x = chainedState.mem x)
      ∧ (headUid [(9, 60), (8, 50), (7, 40)] ≠ some 8 →
          (taiHookReleaseForKernel chainedState 8).2.mem = chainedState.mem)
      ∧ (removeU 8 [(9, 60), (8, 50), (7, 40)] = [] →
          (taiHookReleaseForKernel chainedState 8).2.patches = [] ++ [])
      ∧ (removeU 8 [(9, 60), (8, 50), (7, 40)] ≠ [] →
          patchChainAt (taiHookReleaseForKernel chainedState 8).2 1 5 =
            some (mkChain 105 (removeU 8 [(9, 60), (8, 50), (7, 40)]))))
    ∧ ((releaseSeq chainedState [8, 9, 7]).mem 5 = 105
      ∧ (∀ x, x ≠ 5 → (releaseSeq chainedState [8, 9, 7]).mem x = chainedState.mem x)
      ∧ (releaseSeq chainedState [8, 9, 7]).patches = [] ++ []) :=
  C2_chain_release_any_order chainedState [] [] 1 5 105 [(9, 60), (8, 50), (7, 40)]
    chainedPatch 8 [8, 9, 7] (by decide) (by decide) (by decide)

/-! ### Claim C3: resolution failure leaves no trace -/

/-- C3: for each hook install using a symbolic locator (export, import or
module offset), a failed resolution (negative resolver return code) makes
the operation return that negative code with the state unchanged: no Patch
Record is created and the absolute-address install is never reached. -/
theorem C3_resolution_failure_no_install (ret : Int) (addr : Nat) (s : TaiState)
    (pid hook_func : Nat) (thumb : Int) (h : ret < 0) :
    taiHookFunctionExportForKernel (ret, addr) s pid hook_func = (ret, s)
    ∧ taiHookFunctionImportForKernel (ret, addr) s pid hook_func = (ret, s)
    ∧ taiHookFunctionOffsetForKernel (ret, addr) thumb s pid hook_func = (ret, s) := by
  refine ⟨?_, ?_, ?_⟩ <;>
    simp [taiHookFunctionExportForKernel, taiHookFunctionImportForKernel,
      taiHookFunctionOffsetForKernel, h]

theorem C3_resolution_failure_no_install_witness :
    taiHookFunctionExportForKernel (-7, 100) emptyState 1 5 = (-7, emptyState)
    ∧ taiHookFunctionImportForKernel (-7, 100) emptyState 1 5 = (-7, emptyState)
    ∧ taiHookFunctionOffsetForKernel (-7, 100) 1 emptyState 1 5 = (-7, emptyState) :=
  C3_resolution_failure_no_install (-7) 100 emptyState 1 5 1 (by decide)

/-! ### Claim C6: subsystem start sequence -/

/-- C6: subsystem start initializes the Process Registry, then the Patch
Store, then installs the baseline patches, in that order; the first failing
step makes start return failure with no subsequent step executed, and start
returns success when all three succeed. -/
theorem C6_module_start_sequence (r1 r2 r3 : Int) :
    (r1 < 0 →
      module_start r1 r2 r3 = (SCE_KERNEL_START_FAILED, [StartStep.procMapInit]))
    ∧ (0 ≤ r1 → r2 < 0 →
      module_start r1 r2 r3 =
        (SCE_KERNEL_START_FAILED, [StartStep.procMapInit, StartStep.patchesInit]))
    ∧ (0 ≤ r1 → 0 ≤ r2 → r3 < 0 →
      module_start r1 r2 r3 =
        (SCE_KERNEL_START_FAILED,
         [StartStep.procMapInit, StartStep.patchesInit, StartStep.henAddPatches]))
    ∧ (0 ≤ r1 → 0 ≤ r2 → 0 ≤ r3 →
      module_start r1 r2 r3 =
        (SCE_KERNEL_START_SUCCESS,
         [StartStep.procMapInit, StartStep.patchesInit, StartStep.henAddPatches])) := by
  refine ⟨?_, ?_, ?_, ?_⟩
  · intro h1
    simp [module_start, h1]
  · intro h1 h2
    have hn1 : ¬ r1 < 0 := by omega
    simp [module_start, hn1, h2]
  · intro h1 h2 h3
    have hn1 : ¬ r1 < 0 := by omega
    have hn2 : ¬ r2 < 0 := by omega
    simp [module_start, hn1, hn2, h3]
  · intro h1 h2 h3
    have hn1 : ¬ r1 < 0 := by omega
    have hn2 : ¬ r2 < 0 := by omega
    have hn3 : ¬ r3 < 0 := by omega
    simp [module_start, hn1, hn2, hn3]

theorem C6_module_start_sequence_witness :
    module_start (-1) 0 0 = (SCE_KERNEL_START_FAILED, [StartStep.procMapInit])
    ∧ module_start 0 (-1) 0 =
        (SCE_KERNEL_START_FAILED, [StartStep.procMapInit, StartStep.patchesInit])
    ∧ module_start 0 0 0 =
        (SCE_KERNEL_START_SUCCESS,
         [StartStep.procMapInit, StartStep.patchesInit, StartStep.henAddPatches]) :=
  ⟨(C6_module_start_sequence (-1) 0 0).1 (by decide),
   (C6_module_start_sequence 0 (-1) 0).2.1 (by decide) (by decide),
   (C6_module_start_sequence 0 0 0).2.2.2 (by decide) (by decide) (by decide)⟩

/-! ### Claim C7: subsystem stop sequence -/

/-- C7: subsystem stop unconditionally performs baseline-patch removal,
Patch Store teardown (force-releasing every remaining record) and Process
Registry teardown, in that order, regardless of the collaborator return
codes, and reports success; the forced teardown leaves no active patch
record. -/
theorem C7_module_stop_sequence (r1 r2 r3 : Int) (s : TaiState) :
    (module_stop r1 r2 r3 s).1 = SCE_KERNEL_STOP_SUCCESS
    ∧ (module_stop r1 r2 r3 s).2.1 =
        [StopStep.henRemovePatches, StopStep.patchesDeinit, StopStep.procMapDeinit]
    ∧ (module_stop r1 r2 r3 s).2.2 = patches_deinit s
    ∧ (module_stop r1 r2 r3 s).2.2.patches = [] :=
  ⟨rfl, rfl, rfl, rfl⟩

/-! ### Claim C8: plugin loading requires the configuration -/

/-- C8: load-plugins-for-title returns the system error exactly when the
configuration is not loaded; when it is loaded, the configuration is parsed
for the title, the plugin-load callback is invoked once per matching plugin
and the call returns success. -/
theorem C8_load_plugins_config (g : Option (List ConfigEntry)) (pid titleid : Nat) (flags : Int) :
    ((taiLoadPluginsForTitleForKernel g pid titleid flags).1 = TAI_ERROR_SYSTEM ↔ g = none)
    ∧ (∀ c, g = some c →
        taiLoadPluginsForTitleForKernel g pid titleid flags =
          (TAI_SUCCESS, (taihen_config_parse c titleid).map (hen_load_plugin pid flags))) := by
  cases g with
  | none =>
    refine ⟨by simp [taiLoadPluginsForTitleForKernel], ?_⟩
    intro c hc
    cases hc
  | some c =>
    refine ⟨⟨fun h => ?_, fun h => by cases h⟩, fun c2 hc => ?_⟩
    · exact absurd h (by simp [taiLoadPluginsForTitleForKernel, TAI_SUCCESS, TAI_ERROR_SYSTEM])
    · cases hc
      rfl

theorem C8_load_plugins_config_witness :
    taiLoadPluginsForTitleForKernel
        (some [{ title := 3, plugin := 21 }, { title := 4, plugin := 22 }, { title := 3, plugin := 23 }])
        9 3 1 =
      (TAI_SUCCESS,
        [{ pid := 9, plugin := 21, flags := 1 }, { pid := 9, plugin := 23, flags := 1 }])
    ∧ (taiLoadPluginsForTitleForKernel none 9 3 1).1 = TAI_ERROR_SYSTEM := by
  constructor
  · rw [(C8_load_plugins_config
      (some [{ title := 3, plugin := 21 }, { title := 4, plugin := 22 }, { title := 3, plugin := 23 }])
      9 3 1).2 _ rfl]
    rfl
  · exact (C8_load_plugins_config none 9 3 1).1.mpr rfl

/-! ### Claim C10: the thumb flag only adjusts the resolved address -/

/-- C10: for an offset-based hook install whose locator resolves to address
`addr`, a nonzero thumb flag installs the hook at `addr ||| 1` and a zero
thumb flag at `addr` unchanged; in both cases the call is exactly the
absolute-address install at that adjusted address, so the flag has no other
effect. -/
theorem C10_thumb_bit (ret : Int) (addr : Nat) (thumb : Int) (s : TaiState)
    (pid hook_func : Nat) (h : 0 ≤ ret) :
    taiHookFunctionOffsetForKernel (ret, addr) thumb s pid hook_func
      = taiHookFunctionAbs s pid (if thumb = 0 then addr else addr ||| 1) hook_func
    ∧ (thumb ≠ 0 → taiHookFunctionOffsetForKernel (ret, addr) thumb s pid hook_func
        = taiHookFunctionAbs s pid (addr ||| 1) hook_func)
    ∧ (thumb = 0 → taiHookFunctionOffsetForKernel (ret, addr) thumb s pid hook_func
        = taiHookFunctionAbs s pid addr hook_func) := by
  have hn : ¬ ret < 0 := by omega
  refine ⟨by simp [taiHookFunctionOffsetForKernel, hn], fun ht => ?_, fun ht => ?_⟩
  · simp [taiHookFunctionOffsetForKernel, hn, ht]
  · simp [taiHookFunctionOffsetForKernel, hn, ht]

theorem C10_thumb_bit_witness :
    taiHookFunctionOffsetForKernel (0, 4) 1 emptyState 1 9
      = taiHookFunctionAbs emptyState 1 (4 ||| 1) 9
    ∧ taiHookFunctionOffsetForKernel (0, 4) 0 emptyState 1 9
      = taiHookFunctionAbs emptyState 1 4 9 :=
  ⟨(C10_thumb_bit 0 4 1 emptyState 1 9 (by decide)).2.1 (by decide),
   (C10_thumb_bit 0 4 0 emptyState 1 9 (by decide)).2.2 rfl⟩

end taihen
